import Mathlib

/-!
Verification of the library-management catalog model.

The development embeds the catalog data model (`Book`, `User`, `Library`),
its mutation operations (`addBook`, `addUser`, `issueBook`, `returnBook`),
and the JSON persistence layer (`Library.toJson`, `Library.fromJson?`,
`loadFromFile`) as pure Lean functions, mirroring the source control flow:
each mutating operation returns its typed outcome together with the
post-state, and the early-return error paths return the state unchanged.
-/

/-- A book record: sequential `id`, `title`, `author`, and the issued flag. -/
structure Book where
  id : Nat
  title : String
  author : String
  is_issued : Bool
deriving DecidableEq

/-- A user record: sequential `id`, `name`, and the ids of borrowed books. -/
structure User where
  id : Nat
  name : String
  borrowed_books : List Nat
deriving DecidableEq

/-- The catalog aggregate: ordered collections of books and users. -/
structure Library where
  books : List Book
  users : List User
deriving DecidableEq

/-- The empty catalog produced by `Library::new`. -/
def Library.new : Library :=
  { books := [], users := [] }

/-- Outcome of `issue_book`: success, or one of its two error conditions. -/
inductive IssueResult where
  | ok
  | unknownUser
  | bookUnavailable
deriving DecidableEq

/-- Outcome of `return_book`: success, or one of its three error conditions. -/
inductive ReturnResult where
  | ok
  | unknownUser
  | bookNotIssued
  | notBorrowedByUser
deriving DecidableEq

/-- Outcome of `add_user`: success or the duplicate-name condition. -/
inductive AddUserResult where
  | ok
  | duplicateUser
deriving DecidableEq

/-- Whether some user in the list has the given name (`users.iter().any(...)`). -/
def userExists (users : List User) (name : String) : Bool :=
  users.any fun u => u.name == name

/-- The `add_book` operation: append a new book with id = book count + 1,
not issued; no validation and no failure path. -/
def addBook (L : Library) (title author : String) : Library :=
  { L with books := L.books ++ [{ id := L.books.length + 1, title := title, author := author, is_issued := false }] }

/-- The `add_user` operation: if no user bears the name, append a new user
with id = user count + 1 and an empty borrowed list; otherwise report a
duplicate and leave the catalog unchanged. -/
def addUser (L : Library) (name : String) : AddUserResult × Library :=
  if !(L.users.any fun u => u.name == name) then
    (.ok, { L with users := L.users ++ [{ id := L.users.length + 1, name := name, borrowed_books := [] }] })
  else
    (.duplicateUser, L)

/-- The issuing loop of `issue_book`: walk the books, flip the first one
matching the title with `is_issued == false` to issued and stop, recording
its id (the recorded id stays 0 when no book matches). -/
def issueFirst : List Book → String → List Book × Nat
  | [], _ => ([], 0)
  | b :: bs, title =>
    if b.title == title && !b.is_issued then
      ({ b with is_issued := true } :: bs, b.id)
    else
      let p := issueFirst bs title
      (b :: p.1, p.2)

/-- The user-update loop of `issue_book`: append the book id to the
borrowed list of the first user with the given name and stop. -/
def pushBorrow : List User → String → Nat → List User
  | [], _, _ => []
  | u :: us, name, id =>
    if u.name == name then
      { u with borrowed_books := u.borrowed_books ++ [id] } :: us
    else
      u :: pushBorrow us name id

/-- The `issue_book` operation, with the source's check order: unknown user
first, then availability of some book with the title; on success the first
available matching book is issued and its id pushed onto the user's list. -/
def issueBook (L : Library) (title user : String) : IssueResult × Library :=
  if !(userExists L.users user) then
    (.unknownUser, L)
  else if !(L.books.any fun b => b.title == title && !b.is_issued) then
    (.bookUnavailable, L)
  else
    let p := issueFirst L.books title
    (.ok, { books := p.1, users := pushBorrow L.users user p.2 })

/-- The book-update loop of `return_book`: flip the first book matching the
title with `is_issued == true` back to available and stop. -/
def clearFirst : List Book → String → List Book
  | [], _ => []
  | b :: bs, title =>
    if b.title == title && b.is_issued then
      { b with is_issued := false } :: bs
    else
      b :: clearFirst bs title

/-- The user-update loop of `return_book`: in the first user with the given
name, remove the first occurrence of the book id from the borrowed list
(leaving it unchanged when the id is absent) and stop. -/
def removeBorrow : List User → String → Nat → List User
  | [], _, _ => []
  | u :: us, name, id =>
    if u.name == name then
      { u with borrowed_books := u.borrowed_books.erase id } :: us
    else
      u :: removeBorrow us name id

/-- The `return_book` operation, with the source's check order: unknown
user, then existence of an issued book with the title (resolving the first
such book's id), then membership of that id in some user with the name;
on success the first issued matching book is cleared and the id removed by
value from the user's list. -/
def returnBook (L : Library) (title user : String) : ReturnResult × Library :=
  if !(userExists L.users user) then
    (.unknownUser, L)
  else
    match L.books.find? (fun b => b.title == title && b.is_issued) with
    | none => (.bookNotIssued, L)
    | some book =>
      if !(L.users.any fun u => u.name == user && u.borrowed_books.contains book.id) then
        (.notBorrowedByUser, L)
      else
        (.ok, { books := clearFirst L.books title, users := removeBorrow L.users user book.id })

/-- One catalog operation, for reachability statements. -/
inductive Op where
  | addBook (title author : String)
  | addUser (name : String)
  | issueBook (title user : String)
  | returnBook (title user : String)

/-- Apply one operation to the catalog, keeping only the post-state. -/
def applyOp (L : Library) : Op → Library
  | .addBook t a => addBook L t a
  | .addUser n => (addUser L n).2
  | .issueBook t u => (issueBook L t u).2
  | .returnBook t u => (returnBook L t u).2

/-- Run a sequence of operations from a starting catalog. -/
def runOps (L : Library) (ops : List Op) : Library :=
  ops.foldl applyOp L

/-- JSON document values, the shape produced and consumed by persistence. -/
inductive Json where
  | null
  | bool (b : Bool)
  | num (n : Nat)
  | str (s : String)
  | arr (xs : List Json)
  | obj (fields : List (String × Json))

/-- Field lookup in a JSON object (first binding wins). -/
def Json.getField (j : Json) (k : String) : Option Json :=
  match j with
  | .obj fs => fs.lookup k
  | _ => none

/-- Read a JSON value as a number. -/
def Json.asNat? : Json → Option Nat
  | .num n => some n
  | _ => none

/-- Read a JSON value as a string. -/
def Json.asStr? : Json → Option String
  | .str s => some s
  | _ => none

/-- Read a JSON value as a boolean. -/
def Json.asBool? : Json → Option Bool
  | .bool b => some b
  | _ => none

/-- Read a JSON value as an array. -/
def Json.asArr? : Json → Option (List Json)
  | .arr xs => some xs
  | _ => none

/-- Decode every element of a JSON array, failing on the first failure. -/
def decodeAll {α : Type} (f : Json → Option α) : List Json → Option (List α)
  | [] => some []
  | j :: js => do
    let x ← f j
    let xs ← decodeAll f js
    pure (x :: xs)

/-- Serialize a book to its JSON object, field names as persisted. -/
def Book.toJson (b : Book) : Json :=
  .obj [("id", .num b.id), ("title", .str b.title), ("author", .str b.author), ("is_issued", .bool b.is_issued)]

/-- Deserialize a book from JSON, failing on a missing or ill-typed field. -/
def Book.fromJson? (j : Json) : Option Book := do
  let id ← (← j.getField "id").asNat?
  let title ← (← j.getField "title").asStr?
  let author ← (← j.getField "author").asStr?
  let issued ← (← j.getField "is_issued").asBool?
  pure { id := id, title := title, author := author, is_issued := issued }

/-- Serialize a user to its JSON object, field names as persisted. -/
def User.toJson (u : User) : Json :=
  .obj [("id", .num u.id), ("name", .str u.name), ("borrowed_books", .arr (u.borrowed_books.map Json.num))]

/-- Deserialize a user from JSON, failing on a missing or ill-typed field. -/
def User.fromJson? (j : Json) : Option User := do
  let id ← (← j.getField "id").asNat?
  let name ← (← j.getField "name").asStr?
  let bbJson ← (← j.getField "borrowed_books").asArr?
  let bb ← decodeAll Json.asNat? bbJson
  pure { id := id, name := name, borrowed_books := bb }

/-- Serialize the whole catalog, as `save_to_file` does before writing. -/
def Library.toJson (L : Library) : Json :=
  .obj [("books", .arr (L.books.map Book.toJson)), ("users", .arr (L.users.map User.toJson))]

/-- Deserialize a whole catalog, as `load_from_file` does after reading. -/
def Library.fromJson? (j : Json) : Option Library := do
  let booksJson ← (← j.getField "books").asArr?
  let usersJson ← (← j.getField "users").asArr?
  let bs ← decodeAll Book.fromJson? booksJson
  let us ← decodeAll User.fromJson? usersJson
  pure { books := bs, users := us }

/-- Errors of the persistence layer. -/
inductive LoadError where
  | ioError
  | formatError
deriving DecidableEq

/-- The `load_from_file` operation over a modelled file system: the input is
`none` when no file exists at the path (yielding a fresh empty catalog, not
an error), `some none` when the file exists but its contents are not valid
JSON, and `some (some j)` when the contents parse to the document `j`. -/
def loadFromFile (contents : Option (Option Json)) : Except LoadError Library :=
  match contents with
  | none => .ok Library.new
  | some none => .error .formatError
  | some (some j) =>
    match Library.fromJson? j with
    | some L => .ok L
    | none => .error .formatError

/-- The `save_to_file` operation: serialize the catalog to the document that
is written out. -/
def saveToFile (L : Library) : Json :=
  Library.toJson L

/-! ### Counting borrowed occurrences across all users -/

/-- Catalog of the spec's first scenario: one book, one user, book issued. -/
def sampleIssued : Library :=
  runOps Library.new [.addBook "Dune" "Herbert", .addUser "Alice", .issueBook "Dune" "Alice"]

/-- Catalog with one book and one user, nothing issued. -/
def sampleFresh : Library :=
  runOps Library.new [.addBook "Dune" "Herbert", .addUser "Alice"]

/-- Catalog with two books both titled "Echo" (ids 1 and 2) and user "Bob". -/
def sampleEcho : Library :=
  runOps Library.new [.addBook "Echo" "Smith", .addBook "Echo" "Jones", .addUser "Bob"]

/-- Catalog in which "Dune" is issued to "Alice" while "Carol" is also registered. -/
def sampleTwoUsers : Library :=
  runOps Library.new
    [.addBook "Dune" "Herbert", .addUser "Alice", .addUser "Carol", .issueBook "Dune" "Alice"]

/-- Total number of occurrences of a book id across all borrowed lists. -/
def countBorrow (users : List User) (x : Nat) : Nat :=
  (users.map fun u => u.borrowed_books.count x).sum

/-- Inductive invariant of reachable catalogs: book ids are the positions
shifted by one, user names are pairwise distinct, every book's id occurs in
the borrowed lists with total multiplicity one exactly when the book is
issued, and every borrowed id belongs to some book. -/
structure CatalogInv (L : Library) : Prop where
  idSeq : L.books.map Book.id = List.range' 1 L.books.length
  namesU : (L.users.map User.name).Pairwise (· ≠ ·)
  bCount : ∀ b ∈ L.books, countBorrow L.users b.id = if b.is_issued then 1 else 0
  bMem : ∀ u ∈ L.users, ∀ i ∈ u.borrowed_books, ∃ b ∈ L.books, b.id = i

/-! ### Generic lemmas about the first-match scan loops -/

/-- A successful `any` splits the list at the first element satisfying the
predicate. -/
theorem any_first_split {α : Type} (p : α → Bool) (l : List α) (h : l.any p = true) :
    ∃ l1 x l2, l = l1 ++ x :: l2 ∧ p x = true ∧ ∀ y ∈ l1, p y = false := by
  induction l with
  | nil => simp at h
  | cons a l ih =>
    cases hpa : p a with
    | true => exact ⟨[], a, l, rfl, hpa, by simp⟩
    | false =>
      have hl : l.any p = true := by
        simpa [List.any_cons, hpa] using h
      obtain ⟨l1, x, l2, hsplit, hx, hfail⟩ := ih hl
      refine ⟨a :: l1, x, l2, by simp [hsplit], hx, ?_⟩
      intro y hy
      rcases List.mem_cons.mp hy with rfl | hy'
      · exact hpa
      · exact hfail y hy'

/-- Evaluation of `issueFirst` on a list split at its first available match:
only that book is flipped and its id is returned. -/
theorem issueFirst_decomp (t : String) (b : Book) (l1 l2 : List Book)
    (h1 : ∀ y ∈ l1, (y.title == t && !y.is_issued) = false)
    (hb : (b.title == t && !b.is_issued) = true) :
    issueFirst (l1 ++ b :: l2) t = (l1 ++ { b with is_issued := true } :: l2, b.id) := by
  induction l1 with
  | nil => simp [issueFirst, hb]
  | cons y l1 ih =>
    have hy : (y.title == t && !y.is_issued) = false := h1 y (List.mem_cons_self _ _)
    have ih' := ih fun z hz => h1 z (List.mem_cons_of_mem _ hz)
    simp [issueFirst, hy, ih']

/-- Evaluation of `pushBorrow` on a list split at the first user with the
name: only that user's borrowed list is extended. -/
theorem pushBorrow_decomp (n : String) (id : Nat) (u : User) (u1 u2 : List User)
    (h1 : ∀ v ∈ u1, (v.name == n) = false)
    (hu : (u.name == n) = true) :
    pushBorrow (u1 ++ u :: u2) n id = u1 ++ { u with borrowed_books := u.borrowed_books ++ [id] } :: u2 := by
  induction u1 with
  | nil => simp [pushBorrow, hu]
  | cons v u1 ih =>
    have hv : (v.name == n) = false := h1 v (List.mem_cons_self _ _)
    have ih' := ih fun w hw => h1 w (List.mem_cons_of_mem _ hw)
    simp [pushBorrow, hv, ih']

/-- Evaluation of `clearFirst` on a list split at its first issued match:
only that book is flipped back to available. -/
theorem clearFirst_decomp (t : String) (b : Book) (l1 l2 : List Book)
    (h1 : ∀ y ∈ l1, (y.title == t && y.is_issued) = false)
    (hb : (b.title == t && b.is_issued) = true) :
    clearFirst (l1 ++ b :: l2) t = l1 ++ { b with is_issued := false } :: l2 := by
  induction l1 with
  | nil => simp [clearFirst, hb]
  | cons y l1 ih =>
    have hy : (y.title == t && y.is_issued) = false := h1 y (List.mem_cons_self _ _)
    have ih' := ih fun z hz => h1 z (List.mem_cons_of_mem _ hz)
    simp [clearFirst, hy, ih']

/-- Evaluation of `removeBorrow` on a list split at the first user with the
name: only that user's borrowed list has the id erased. -/
theorem removeBorrow_decomp (n : String) (id : Nat) (u : User) (u1 u2 : List User)
    (h1 : ∀ v ∈ u1, (v.name == n) = false)
    (hu : (u.name == n) = true) :
    removeBorrow (u1 ++ u :: u2) n id = u1 ++ { u with borrowed_books := u.borrowed_books.erase id } :: u2 := by
  induction u1 with
  | nil => simp [removeBorrow, hu]
  | cons v u1 ih =>
    have hv : (v.name == n) = false := h1 v (List.mem_cons_self _ _)
    have ih' := ih fun w hw => h1 w (List.mem_cons_of_mem _ hw)
    simp [removeBorrow, hv, ih']

theorem countBorrow_append (us vs : List User) (x : Nat) :
    countBorrow (us ++ vs) x = countBorrow us x + countBorrow vs x := by
  simp [countBorrow]

theorem countBorrow_cons (u : User) (us : List User) (x : Nat) :
    countBorrow (u :: us) x = u.borrowed_books.count x + countBorrow us x := by
  simp [countBorrow]

/-- A zero total count says the id is in nobody's borrowed list. -/
theorem countBorrow_eq_zero (us : List User) (x : Nat) :
    countBorrow us x = 0 ↔ ∀ u ∈ us, x ∉ u.borrowed_books := by
  induction us with
  | nil => simp [countBorrow]
  | cons u us ih =>
    rw [countBorrow_cons]
    constructor
    · intro h
      intro v hv
      rcases List.mem_cons.mp hv with rfl | hv'
      · exact List.count_eq_zero.mp (by omega)
      · exact (ih.mp (by omega)) v hv'
    · intro h
      have h1 : u.borrowed_books.count x = 0 :=
        List.count_eq_zero.mpr (h u (List.mem_cons_self _ _))
      have h2 : countBorrow us x = 0 := ih.mpr fun v hv => h v (List.mem_cons_of_mem _ hv)
      omega

/-- A total count of one says exactly one user's borrowed list holds the id. -/
theorem countBorrow_one_filter (us : List User) (x : Nat) (h : countBorrow us x = 1) :
    (us.filter fun u => u.borrowed_books.contains x).length = 1 := by
  induction us with
  | nil => simp [countBorrow] at h
  | cons u us ih =>
    rw [countBorrow_cons] at h
    by_cases hm : x ∈ u.borrowed_books
    · have hc : 0 < u.borrowed_books.count x := List.count_pos_iff.mpr hm
      have hrest : countBorrow us x = 0 := by omega
      simp [List.filter_cons, hm]
      exact (countBorrow_eq_zero us x).mp hrest
    · have hc : u.borrowed_books.count x = 0 := List.count_eq_zero.mpr hm
      have hrest : countBorrow us x = 1 := by omega
      have := ih hrest
      simpa [List.filter_cons, hm] using this

/-- A zero total count gives an empty filter. -/
theorem countBorrow_zero_filter (us : List User) (x : Nat) (h : countBorrow us x = 0) :
    (us.filter fun u => u.borrowed_books.contains x).length = 0 := by
  rw [List.length_eq_zero, List.filter_eq_nil_iff]
  intro v hv
  have := (countBorrow_eq_zero us x).mp h v hv
  simpa using this

/-! ### The catalog invariant -/

theorem inv_new : CatalogInv Library.new := by
  constructor <;> simp [Library.new, countBorrow]

/-- Under the id-sequence invariant every book id is between 1 and the book
count. -/
theorem id_bounds (L : Library) (hid : L.books.map Book.id = List.range' 1 L.books.length) :
    ∀ b ∈ L.books, 1 ≤ b.id ∧ b.id < L.books.length + 1 := by
  intro b hb
  have hmem : b.id ∈ List.range' 1 L.books.length := by
    rw [← hid]
    exact List.mem_map.mpr ⟨b, hb, rfl⟩
  have := List.mem_range'_1.mp hmem
  omega

/-- Under the id-sequence invariant the book ids are pairwise distinct. -/
theorem ids_nodup (L : Library) (hid : L.books.map Book.id = List.range' 1 L.books.length) :
    (L.books.map Book.id).Nodup := by
  rw [hid]
  exact List.nodup_range' 1 L.books.length

/-- In a split of a duplicate-free id list, books on either side of the
split point have ids different from the split book's id. -/
theorem id_ne_of_split (l1 l2 : List Book) (b : Book)
    (hnd : ((l1 ++ b :: l2).map Book.id).Nodup) :
    ∀ x, (x ∈ l1 ∨ x ∈ l2) → x.id ≠ b.id := by
  intro x hx heq
  rw [List.map_append, List.map_cons] at hnd
  rcases List.nodup_append.mp hnd with ⟨_, h2, hdisj⟩
  rcases hx with hx | hx
  · exact hdisj (List.mem_map.mpr ⟨x, hx, rfl⟩) (by simp [heq])
  · rcases List.nodup_cons.mp h2 with ⟨hbnotin, _⟩
    exact hbnotin (by rw [← heq]; exact List.mem_map.mpr ⟨x, hx, rfl⟩)

/-! ### Invariant preservation -/

theorem inv_addBook (L : Library) (t a : String) (h : CatalogInv L) : CatalogInv (addBook L t a) := by
  obtain ⟨hid, hnm, hbc, hbm⟩ := h
  refine ⟨?_, ?_, ?_, ?_⟩
  · simp only [addBook, List.map_append, List.length_append, List.map_cons, List.map_nil,
      List.length_cons, List.length_nil, hid]
    rw [List.range'_concat 1 L.books.length]
    simp
    omega
  · exact hnm
  · intro b hb
    simp only [addBook, List.mem_append, List.mem_cons, List.not_mem_nil, or_false] at hb
    rcases hb with hb | rfl
    · exact hbc b hb
    · simp only [Bool.false_eq_true, if_false]
      rw [countBorrow_eq_zero]
      intro u hu hmem
      obtain ⟨c, hc, hcid⟩ := hbm u hu _ hmem
      have := id_bounds L hid c hc
      omega
  · intro u hu i hi
    obtain ⟨c, hc, hcid⟩ := hbm u hu i hi
    exact ⟨c, by simp [addBook, hc], hcid⟩

theorem inv_addUser (L : Library) (n : String) (h : CatalogInv L) : CatalogInv (addUser L n).2 := by
  obtain ⟨hid, hnm, hbc, hbm⟩ := h
  by_cases hdup : L.users.any (fun u => u.name == n) = true
  · simpa [addUser, hdup] using ⟨hid, hnm, hbc, hbm⟩
  · have hnone : ∀ u ∈ L.users, u.name ≠ n := by
      intro u hu
      have := List.any_eq_false.mp (Bool.eq_false_iff.mpr hdup) u hu
      simpa using this
    refine ⟨?_, ?_, ?_, ?_⟩
    · simpa [addUser, hdup] using hid
    · simp only [addUser, hdup, Bool.not_false, if_true, List.map_append, List.map_cons,
        List.map_nil]
      rw [List.pairwise_append]
      refine ⟨hnm, by simp, ?_⟩
      intro x hx y hy
      simp only [List.mem_cons, List.not_mem_nil, or_false] at hy
      subst hy
      obtain ⟨u, hu, rfl⟩ := List.mem_map.mp hx
      exact hnone u hu
    · intro b hb
      have hb' : b ∈ L.books := by simpa [addUser, hdup] using hb
      have := hbc b hb'
      simp only [addUser, hdup, Bool.not_false, if_true]
      rw [countBorrow_append, countBorrow_cons]
      simpa [countBorrow]
    · intro u hu i hi
      have hu' : u ∈ L.users ++ [{ id := L.users.length + 1, name := n, borrowed_books := [] }] := by
        simpa [addUser, hdup] using hu
      rcases List.mem_append.mp hu' with hu'' | hu''
      · obtain ⟨c, hc, hcid⟩ := hbm u hu'' i hi
        exact ⟨c, by simpa [addUser, hdup] using hc, hcid⟩
      · simp only [List.mem_cons, List.not_mem_nil, or_false] at hu''
        subst hu''
        simp at hi

/-! ### Success-path characterizations of issue and return -/

/-- When the user exists and some book with the title is available,
`issueBook` succeeds: the catalog splits at the first available matching
book and at the first user with the name, and exactly those two records
change (the book is flagged issued, its id appended to the user's list). -/
theorem issueBook_success (L : Library) (t n : String)
    (hexists : userExists L.users n = true)
    (havail : (L.books.any fun b => b.title == t && !b.is_issued) = true) :
    ∃ l1 b l2 u1 u u2,
      L.books = l1 ++ b :: l2 ∧
      (∀ y ∈ l1, (y.title == t && !y.is_issued) = false) ∧
      (b.title == t && !b.is_issued) = true ∧
      L.users = u1 ++ u :: u2 ∧
      (∀ v ∈ u1, (v.name == n) = false) ∧
      (u.name == n) = true ∧
      issueBook L t n = (.ok, { books := l1 ++ { b with is_issued := true } :: l2,
                                users := u1 ++ { u with borrowed_books := u.borrowed_books ++ [b.id] } :: u2 }) := by
  obtain ⟨l1, b, l2, hbs, hb, hl1⟩ := any_first_split _ L.books havail
  obtain ⟨u1, u, u2, hus, hu, hu1⟩ := any_first_split _ L.users hexists
  refine ⟨l1, b, l2, u1, u, u2, hbs, hl1, hb, hus, hu1, hu, ?_⟩
  have h1 : issueFirst L.books t = (l1 ++ { b with is_issued := true } :: l2, b.id) := by
    rw [hbs]
    exact issueFirst_decomp t b l1 l2 hl1 hb
  have h2 : pushBorrow L.users n b.id = u1 ++ { u with borrowed_books := u.borrowed_books ++ [b.id] } :: u2 := by
    rw [hus]
    exact pushBorrow_decomp n b.id u u1 u2 hu1 hu
  simp [issueBook, hexists, havail, h1, h2]

/-- When the user exists, an issued book with the title is found, and the
borrowed check passes, `returnBook` succeeds: the catalog splits at the
first issued matching book and at the first user with the name, and exactly
those two records change (the book is cleared, its id erased by value). -/
theorem returnBook_success (L : Library) (t n : String) (B : Book)
    (hexists : userExists L.users n = true)
    (hfind : L.books.find? (fun b => b.title == t && b.is_issued) = some B)
    (hcheck : (L.users.any fun u => u.name == n && u.borrowed_books.contains B.id) = true) :
    ∃ l1 l2 u1 u u2,
      L.books = l1 ++ B :: l2 ∧
      (∀ y ∈ l1, (y.title == t && y.is_issued) = false) ∧
      (B.title == t && B.is_issued) = true ∧
      L.users = u1 ++ u :: u2 ∧
      (∀ v ∈ u1, (v.name == n) = false) ∧
      (u.name == n) = true ∧
      returnBook L t n = (.ok, { books := l1 ++ { B with is_issued := false } :: l2,
                                 users := u1 ++ { u with borrowed_books := u.borrowed_books.erase B.id } :: u2 }) := by
  obtain ⟨hB, l1, l2, hbs, hl1⟩ := List.find?_eq_some.mp hfind
  have hl1' : ∀ y ∈ l1, (y.title == t && y.is_issued) = false := by
    intro y hy
    have h := hl1 y hy
    cases hyp : (y.title == t && y.is_issued) with
    | false => rfl
    | true => rw [hyp] at h; simp at h
  obtain ⟨u1, u, u2, hus, hu, hu1⟩ := any_first_split _ L.users hexists
  refine ⟨l1, l2, u1, u, u2, hbs, hl1', hB, hus, hu1, hu, ?_⟩
  have h1 : clearFirst L.books t = l1 ++ { B with is_issued := false } :: l2 := by
    rw [hbs]
    exact clearFirst_decomp t B l1 l2 hl1' hB
  have h2 : removeBorrow L.users n B.id = u1 ++ { u with borrowed_books := u.borrowed_books.erase B.id } :: u2 := by
    rw [hus]
    exact removeBorrow_decomp n B.id u u1 u2 hu1 hu
  have hex : ∃ x ∈ L.users, x.name = n ∧ B.id ∈ x.borrowed_books := by
    obtain ⟨v, hv, hp⟩ := List.any_eq_true.mp hcheck
    refine ⟨v, hv, ?_⟩
    simpa using hp
  simp [returnBook, hexists, hfind, hcheck, h1, h2, hex]

/-- Total borrow count after appending an id to one user's list. -/
theorem countBorrow_push (u1 u2 : List User) (u : User) (id x : Nat) :
    countBorrow (u1 ++ { u with borrowed_books := u.borrowed_books ++ [id] } :: u2) x =
      countBorrow (u1 ++ u :: u2) x + (if id = x then 1 else 0) := by
  rw [countBorrow_append, countBorrow_cons, countBorrow_append, countBorrow_cons]
  by_cases h : id = x
  · subst h
    simp [List.count_append]
    omega
  · simp [List.count_append, List.count_cons, h]

theorem inv_issueBook (L : Library) (t n : String) (h : CatalogInv L) :
    CatalogInv (issueBook L t n).2 := by
  obtain ⟨hid, hnm, hbc, hbm⟩ := h
  cases hexists : userExists L.users n with
  | false =>
    have hL : (issueBook L t n).2 = L := by simp [issueBook, hexists]
    rw [hL]
    exact ⟨hid, hnm, hbc, hbm⟩
  | true =>
    cases havail : (L.books.any fun b => b.title == t && !b.is_issued) with
    | false =>
      have hL : (issueBook L t n).2 = L := by simp [issueBook, hexists, havail]
      rw [hL]
      exact ⟨hid, hnm, hbc, hbm⟩
    | true =>
      obtain ⟨l1, b, l2, u1, u, u2, hbs, hl1, hb, hus, hu1, hu, heq⟩ :=
        issueBook_success L t n hexists havail
      rw [heq]
      have hbavail : b.is_issued = false := by
        have hb' := hb
        simp at hb'
        exact hb'.2
      have hbmem : b ∈ L.books := by rw [hbs]; simp
      have humem : u ∈ L.users := by rw [hus]; simp
      have hnd : ((l1 ++ b :: l2).map Book.id).Nodup := by
        rw [← hbs]
        exact ids_nodup L hid
      have hne := id_ne_of_split l1 l2 b hnd
      have hcb' : ∀ x, countBorrow (u1 ++ { u with borrowed_books := u.borrowed_books ++ [b.id] } :: u2) x =
          countBorrow L.users x + (if b.id = x then 1 else 0) := by
        intro x
        rw [countBorrow_push, ← hus]
      refine ⟨?_, ?_, ?_, ?_⟩
      · show (l1 ++ { b with is_issued := true } :: l2).map Book.id =
          List.range' 1 (l1 ++ { b with is_issued := true } :: l2).length
        have e1 : (l1 ++ { b with is_issued := true } :: l2).map Book.id = L.books.map Book.id := by
          rw [hbs]
          simp
        have e2 : (l1 ++ { b with is_issued := true } :: l2).length = L.books.length := by
          rw [hbs]
          simp
        rw [e1, e2, hid]
      · show ((u1 ++ { u with borrowed_books := u.borrowed_books ++ [b.id] } :: u2).map User.name).Pairwise (· ≠ ·)
        have e : (u1 ++ { u with borrowed_books := u.borrowed_books ++ [b.id] } :: u2).map User.name =
            L.users.map User.name := by
          rw [hus]
          simp
        rw [e]
        exact hnm
      · intro c hc
        simp only [List.mem_append, List.mem_cons] at hc
        show countBorrow (u1 ++ { u with borrowed_books := u.borrowed_books ++ [b.id] } :: u2) c.id =
          if c.is_issued then 1 else 0
        rw [hcb']
        rcases hc with hc | hc | hc
        · have hcid : c.id ≠ b.id := hne c (Or.inl hc)
          have hcb := hbc c (by rw [hbs]; simp [hc])
          rw [if_neg fun e => hcid e.symm, hcb]
          simp
        · subst hc
          have hcb := hbc b hbmem
          rw [hbavail] at hcb
          simp only [Bool.false_eq_true, if_false] at hcb
          simp [hcb]
        · have hcid : c.id ≠ b.id := hne c (Or.inr hc)
          have hcb := hbc c (by rw [hbs]; simp [hc])
          rw [if_neg fun e => hcid e.symm, hcb]
          simp
      · intro v hv i hi
        have hlift : ∀ j, (∃ c ∈ L.books, c.id = j) →
            ∃ c ∈ l1 ++ { b with is_issued := true } :: l2, c.id = j := by
          intro j hj
          obtain ⟨c, hc, hcid⟩ := hj
          rw [hbs] at hc
          rcases List.mem_append.mp hc with hcl | hcr
          · exact ⟨c, by simp [hcl], hcid⟩
          · rcases List.mem_cons.mp hcr with rfl | hcl2
            · exact ⟨{ c with is_issued := true }, by simp, hcid⟩
            · exact ⟨c, by simp [hcl2], hcid⟩
        simp only [List.mem_append, List.mem_cons] at hv
        rcases hv with hv | hv | hv
        · exact hlift i (hbm v (by rw [hus]; simp [hv]) i hi)
        · subst hv
          rcases List.mem_append.mp hi with hi1 | hi2
          · exact hlift i (hbm u humem i hi1)
          · have : i = b.id := by simpa using hi2
            subst this
            exact ⟨{ b with is_issued := true }, by simp, rfl⟩
        · exact hlift i (hbm v (by rw [hus]; simp [hv]) i hi)

theorem inv_returnBook (L : Library) (t n : String) (h : CatalogInv L) :
    CatalogInv (returnBook L t n).2 := by
  obtain ⟨hid, hnm, hbc, hbm⟩ := h
  cases hexists : userExists L.users n with
  | false =>
    have hL : (returnBook L t n).2 = L := by simp [returnBook, hexists]
    rw [hL]
    exact ⟨hid, hnm, hbc, hbm⟩
  | true =>
    cases hfind : L.books.find? (fun b => b.title == t && b.is_issued) with
    | none =>
      have hL : (returnBook L t n).2 = L := by simp [returnBook, hexists, hfind]
      rw [hL]
      exact ⟨hid, hnm, hbc, hbm⟩
    | some B =>
      cases hcheck : (L.users.any fun u => u.name == n && u.borrowed_books.contains B.id) with
      | false =>
        have hnone : ∀ x ∈ L.users, x.name = n → B.id ∉ x.borrowed_books := by
          intro x hx hxn
          have hc := List.any_eq_false.mp hcheck x hx
          simpa [hxn] using hc
        have hL : (returnBook L t n).2 = L := by
          simp [returnBook, hexists, hfind]
          rw [if_pos hnone]
        rw [hL]
        exact ⟨hid, hnm, hbc, hbm⟩
      | true =>
        obtain ⟨l1, l2, u1, u, u2, hbs, hl1, hB, hus, hu1, hu, heq⟩ :=
          returnBook_success L t n B hexists hfind hcheck
        rw [heq]
        have hBiss : B.is_issued = true := by
          have hB' := hB
          simp at hB'
          exact hB'.2
        have hBmem : B ∈ L.books := by rw [hbs]; simp
        have humem : u ∈ L.users := by rw [hus]; simp
        have hnd : ((l1 ++ B :: l2).map Book.id).Nodup := by
          rw [← hbs]
          exact ids_nodup L hid
        have hne := id_ne_of_split l1 l2 B hnd
        have hun : u.name = n := by simpa using hu
        have huniq : ∀ v ∈ u2, u.name ≠ v.name := by
          rw [hus, List.map_append, List.map_cons] at hnm
          have h2 := (List.pairwise_append.mp hnm).2.1
          have hch := (List.pairwise_cons.mp h2).1
          intro v hv
          exact hch v.name (List.mem_map.mpr ⟨v, hv, rfl⟩)
        have humemid : B.id ∈ u.borrowed_books := by
          obtain ⟨v, hv, hp⟩ := List.any_eq_true.mp hcheck
          have hp' : v.name = n ∧ B.id ∈ v.borrowed_books := by simpa using hp
          rw [hus] at hv
          rcases List.mem_append.mp hv with hv1 | hv2
          · exact absurd hp'.1 (by have hc := hu1 v hv1; simpa using hc)
          · rcases List.mem_cons.mp hv2 with rfl | hv3
            · exact hp'.2
            · exact absurd (hun.trans hp'.1.symm) (huniq v hv3)
        have htot : countBorrow u1 B.id + u.borrowed_books.count B.id + countBorrow u2 B.id = 1 := by
          have hc := hbc B hBmem
          rw [hBiss] at hc
          simp only [if_true] at hc
          rw [hus, countBorrow_append, countBorrow_cons] at hc
          omega
        have hupos : 0 < u.borrowed_books.count B.id := List.count_pos_iff.mpr humemid
        have hu1z : countBorrow u1 B.id = 0 := by omega
        have hu2z : countBorrow u2 B.id = 0 := by omega
        have hucount : u.borrowed_books.count B.id = 1 := by omega
        have hcb2 : ∀ x, x ≠ B.id →
            countBorrow u1 x + (u.borrowed_books.erase B.id).count x + countBorrow u2 x =
              countBorrow L.users x := by
          intro x hx
          rw [List.count_erase_of_ne hx, hus, countBorrow_append, countBorrow_cons]
          omega
        refine ⟨?_, ?_, ?_, ?_⟩
        · show (l1 ++ { B with is_issued := false } :: l2).map Book.id =
            List.range' 1 (l1 ++ { B with is_issued := false } :: l2).length
          have e1 : (l1 ++ { B with is_issued := false } :: l2).map Book.id = L.books.map Book.id := by
            rw [hbs]
            simp
          have e2 : (l1 ++ { B with is_issued := false } :: l2).length = L.books.length := by
            rw [hbs]
            simp
          rw [e1, e2, hid]
        · show ((u1 ++ { u with borrowed_books := u.borrowed_books.erase B.id } :: u2).map User.name).Pairwise (· ≠ ·)
          have e : (u1 ++ { u with borrowed_books := u.borrowed_books.erase B.id } :: u2).map User.name =
              L.users.map User.name := by
            rw [hus]
            simp
          rw [e]
          exact hnm
        · intro c hc
          simp only [List.mem_append, List.mem_cons] at hc
          show countBorrow (u1 ++ { u with borrowed_books := u.borrowed_books.erase B.id } :: u2) c.id =
            if c.is_issued then 1 else 0
          rw [countBorrow_append, countBorrow_cons]
          rcases hc with hc | hc | hc
          · have hcid : c.id ≠ B.id := hne c (Or.inl hc)
            have hcb := hbc c (by rw [hbs]; simp [hc])
            have he := hcb2 c.id hcid
            show countBorrow u1 c.id + (List.count c.id (u.borrowed_books.erase B.id) + countBorrow u2 c.id) =
              if c.is_issued = true then 1 else 0
            rw [← Nat.add_assoc, he, hcb]
          · subst hc
            show countBorrow u1 B.id + (List.count B.id (u.borrowed_books.erase B.id) + countBorrow u2 B.id) = 0
            rw [List.count_erase_self, hucount, hu1z, hu2z]
          · have hcid : c.id ≠ B.id := hne c (Or.inr hc)
            have hcb := hbc c (by rw [hbs]; simp [hc])
            have he := hcb2 c.id hcid
            show countBorrow u1 c.id + (List.count c.id (u.borrowed_books.erase B.id) + countBorrow u2 c.id) =
              if c.is_issued = true then 1 else 0
            rw [← Nat.add_assoc, he, hcb]
        · intro v hv i hi
          have hlift : ∀ j, (∃ c ∈ L.books, c.id = j) →
              ∃ c ∈ l1 ++ { B with is_issued := false } :: l2, c.id = j := by
            intro j hj
            obtain ⟨c, hc, hcid⟩ := hj
            rw [hbs] at hc
            rcases List.mem_append.mp hc with hcl | hcr
            · exact ⟨c, by simp [hcl], hcid⟩
            · rcases List.mem_cons.mp hcr with rfl | hcl2
              · exact ⟨{ c with is_issued := false }, by simp, hcid⟩
              · exact ⟨c, by simp [hcl2], hcid⟩
          simp only [List.mem_append, List.mem_cons] at hv
          rcases hv with hv | hv | hv
          · exact hlift i (hbm v (by rw [hus]; simp [hv]) i hi)
          · subst hv
            exact hlift i (hbm u humem i (List.mem_of_mem_erase hi))
          · exact hlift i (hbm v (by rw [hus]; simp [hv]) i hi)

/-- The invariant is preserved by every single catalog operation. -/
theorem inv_applyOp (L : Library) (op : Op) (h : CatalogInv L) : CatalogInv (applyOp L op) := by
  cases op with
  | addBook t a => exact inv_addBook L t a h
  | addUser n => exact inv_addUser L n h
  | issueBook t u => exact inv_issueBook L t u h
  | returnBook t u => exact inv_returnBook L t u h

/-- The invariant holds of every catalog reachable from an invariant one. -/
theorem inv_runOps (ops : List Op) (L : Library) (h : CatalogInv L) :
    CatalogInv (runOps L ops) := by
  induction ops generalizing L with
  | nil => exact h
  | cons op ops ih => exact ih (applyOp L op) (inv_applyOp L op h)

/-! ### Serialization round trip -/

theorem bookJson_roundTrip (b : Book) : Book.fromJson? b.toJson = some b := rfl

theorem decodeAll_asNat_map_num (l : List Nat) : decodeAll Json.asNat? (l.map Json.num) = some l := by
  induction l with
  | nil => rfl
  | cons x l ih => simp [decodeAll, ih, Json.asNat?]

theorem userJson_roundTrip (u : User) : User.fromJson? u.toJson = some u := by
  simp +decide [User.toJson, User.fromJson?, Json.getField, List.lookup, decodeAll_asNat_map_num,
    Json.asNat?, Json.asStr?, Json.asArr?]

theorem decodeAll_book_roundTrip (l : List Book) :
    decodeAll Book.fromJson? (l.map Book.toJson) = some l := by
  induction l with
  | nil => rfl
  | cons b l ih => simp [decodeAll, ih, bookJson_roundTrip]

theorem decodeAll_user_roundTrip (l : List User) :
    decodeAll User.fromJson? (l.map User.toJson) = some l := by
  induction l with
  | nil => rfl
  | cons u l ih => simp [decodeAll, ih, userJson_roundTrip]

theorem libraryJson_roundTrip (L : Library) : Library.fromJson? L.toJson = some L := by
  simp +decide [Library.toJson, Library.fromJson?, Json.getField, List.lookup, Json.asArr?,
    decodeAll_book_roundTrip, decodeAll_user_roundTrip]

/-- When no book with the title is issued, clearing after issuing restores
the book list exactly. -/
theorem clearFirst_issueFirst (t : String) (bs : List Book)
    (hno : ∀ b ∈ bs, (b.title == t && b.is_issued) = false) :
    clearFirst (issueFirst bs t).1 t = bs := by
  induction bs with
  | nil => rfl
  | cons b bs ih =>
    cases hp : (b.title == t && !b.is_issued) with
    | true =>
      have hsplit : (b.title == t) = true ∧ b.is_issued = false := by simpa using hp
      have ht : (b.title == t) = true := hsplit.1
      have hbf : b.is_issued = false := hsplit.2
      obtain ⟨bid, btitle, bauthor, biss⟩ := b
      simp only at hbf
      subst hbf
      simp only at ht
      simp [issueFirst, clearFirst, ht]
    | false =>
      have hb' : (b.title == t && b.is_issued) = false := hno b (List.mem_cons_self _ _)
      have ih' := ih fun c hc => hno c (List.mem_cons_of_mem _ hc)
      simp [issueFirst, hp, clearFirst, hb', ih']

/-! ### Claim theorems -/

/-- C3: serializing a catalog as `save` does and deserializing the result as
`load` does yields a catalog equal in all fields to the original. -/
theorem c3_save_load_roundTrip (L : Library) :
    loadFromFile (some (some (saveToFile L))) = .ok L := by
  simp [loadFromFile, saveToFile, libraryJson_roundTrip]

/-- C5: when no user bears the given name, `issue_book` signals the unknown
user condition and leaves the whole catalog unchanged, whatever the book
collection looks like — so the user check precedes the availability check. -/
theorem c5_issue_unknown_user (L : Library) (title user : String)
    (h : ∀ u ∈ L.users, u.name ≠ user) :
    issueBook L title user = (.unknownUser, L) := by
  have hex : userExists L.users user = false := by
    rw [userExists, List.any_eq_false]
    intro u hu
    simpa using h u hu
  simp [issueBook, hex]

/-- C5 witness: a catalog holding an available "Dune" but no users still
reports the unknown user, untouched. -/
theorem c5_witness :
    issueBook (runOps Library.new [Op.addBook "Dune" "Herbert"]) "Dune" "Alice" =
      (.unknownUser, runOps Library.new [Op.addBook "Dune" "Herbert"]) :=
  c5_issue_unknown_user (runOps Library.new [Op.addBook "Dune" "Herbert"]) "Dune" "Alice"
    (by decide)

/-- C6: `add_user` with a name equal (case-sensitively) to an existing
user's name leaves the user collection unchanged and signals the duplicate;
with a fresh name it appends a user with id = user count + 1 and an empty
borrowed list. -/
theorem c6_addUser_duplicate (L : Library) (name : String) :
    ((∃ u ∈ L.users, u.name = name) → addUser L name = (.duplicateUser, L))
    ∧ ((∀ u ∈ L.users, u.name ≠ name) →
        addUser L name =
          (.ok, { L with users := L.users ++ [{ id := L.users.length + 1, name := name, borrowed_books := [] }] })) := by
  constructor
  · intro hdup
    obtain ⟨u, hu, hn⟩ := hdup
    have hany : (L.users.any fun u => u.name == name) = true :=
      List.any_eq_true.mpr ⟨u, hu, by simpa using hn⟩
    simp [addUser, hany]
  · intro h
    have hany : (L.users.any fun u => u.name == name) = false := by
      rw [List.any_eq_false]
      intro u hu
      simpa using h u hu
    simp [addUser, hany]

/-- C6 witness: re-adding "Alice" is refused and leaves the state; adding
"Alice" to the empty catalog appends user id 1 with no borrowed books. -/
theorem c6_witness :
    addUser (runOps Library.new [Op.addUser "Alice"]) "Alice" =
      (.duplicateUser, runOps Library.new [Op.addUser "Alice"])
    ∧ addUser Library.new "Alice" =
      (.ok, { books := [], users := [{ id := 1, name := "Alice", borrowed_books := [] }] }) :=
  ⟨(c6_addUser_duplicate (runOps Library.new [Op.addUser "Alice"]) "Alice").1 (by decide),
    ((c6_addUser_duplicate Library.new "Alice").2 (by decide)).trans (by decide)⟩

/-- C8: `add_book` appends a book with id = book count + 1 and not issued,
accepting any strings (blanks included) with no failure path and leaving
the users untouched; `add_user` on a fresh name likewise assigns
id = user count + 1. -/
theorem c8_id_assignment (L : Library) (title author name : String) :
    (addBook L title author).users = L.users
    ∧ (addBook L title author).books =
        L.books ++ [{ id := L.books.length + 1, title := title, author := author, is_issued := false }]
    ∧ ((∀ u ∈ L.users, u.name ≠ name) →
        (addUser L name).1 = .ok ∧
          (addUser L name).2.users =
            L.users ++ [{ id := L.users.length + 1, name := name, borrowed_books := [] }]) := by
  refine ⟨rfl, rfl, ?_⟩
  intro h
  have hany : (L.users.any fun u => u.name == name) = false := by
    rw [List.any_eq_false]
    intro u hu
    simpa using h u hu
  simp [addUser, hany]

/-- C8 witness: blank title, author and name are accepted as-is, with
sequential ids assigned. -/
theorem c8_witness :
    (addBook Library.new "" "").users = []
    ∧ (addBook Library.new "" "").books = [{ id := 1, title := "", author := "", is_issued := false }]
    ∧ (addUser Library.new "").1 = .ok
    ∧ (addUser Library.new "").2.users = [{ id := 1, name := "", borrowed_books := [] }] := by
  obtain ⟨h1, h2, h3⟩ := c8_id_assignment Library.new "" "" ""
  obtain ⟨h4, h5⟩ := h3 (by decide)
  exact ⟨h1, h2.trans (by decide), h4, h5.trans (by decide)⟩

/-- C9: loading from a nonexistent path returns the empty catalog rather
than an error, while an existing file whose contents fail to parse or to
decode to the expected shape yields the format error. -/
theorem c9_load_behavior :
    loadFromFile none = .ok Library.new
    ∧ loadFromFile (some none) = .error .formatError
    ∧ ∀ j, Library.fromJson? j = none → loadFromFile (some (some j)) = .error .formatError := by
  refine ⟨rfl, rfl, ?_⟩
  intro j hj
  simp [loadFromFile, hj]

/-- C9 witness: the undecodable document `0` is rejected with the format
error, and the missing-file and invalid-JSON cases behave as claimed. -/
theorem c9_witness :
    loadFromFile none = .ok Library.new
    ∧ loadFromFile (some none) = .error .formatError
    ∧ loadFromFile (some (some (Json.num 0))) = .error .formatError :=
  ⟨c9_load_behavior.1, c9_load_behavior.2.1, c9_load_behavior.2.2 (Json.num 0) rfl⟩

/-- C10: whenever `issue_book` or `return_book` signals any error outcome,
the whole catalog is returned exactly unchanged — no partial mutation. -/
theorem c10_errors_leave_state (L : Library) (title user : String) :
    ((issueBook L title user).1 ≠ .ok → (issueBook L title user).2 = L)
    ∧ ((returnBook L title user).1 ≠ .ok → (returnBook L title user).2 = L) := by
  constructor
  · intro h
    cases hex : userExists L.users user with
    | false => simp [issueBook, hex]
    | true =>
      cases hav : (L.books.any fun b => b.title == title && !b.is_issued) with
      | false => simp [issueBook, hex, hav]
      | true =>
        exact absurd (by simp [issueBook, hex, hav]) h
  · intro h
    cases hex : userExists L.users user with
    | false => simp [returnBook, hex]
    | true =>
      cases hfind : L.books.find? (fun b => b.title == title && b.is_issued) with
      | none => simp [returnBook, hex, hfind]
      | some B =>
        cases hchk : (L.users.any fun u => u.name == user && u.borrowed_books.contains B.id) with
        | false =>
          have hnone : ∀ x ∈ L.users, x.name = user → B.id ∉ x.borrowed_books := by
            intro x hx hxn
            have hc := List.any_eq_false.mp hchk x hx
            simpa [hxn] using hc
          simp [returnBook, hex, hfind]
          rw [if_pos hnone]
        | true =>
          have hnot : ¬∀ x ∈ L.users, x.name = user → B.id ∉ x.borrowed_books := by
            obtain ⟨v, hv, hp⟩ := List.any_eq_true.mp hchk
            have hp' : v.name = user ∧ B.id ∈ v.borrowed_books := by simpa using hp
            intro hall
            exact hall v hv hp'.1 hp'.2
          refine absurd ?_ h
          simp [returnBook, hex, hfind]
          rw [if_neg hnot]

/-- C10 witness: on the empty catalog both operations fail and return the
state unchanged. -/
theorem c10_witness :
    (issueBook Library.new "Dune" "Alice").2 = Library.new
    ∧ (returnBook Library.new "Dune" "Alice").2 = Library.new :=
  ⟨(c10_errors_leave_state Library.new "Dune" "Alice").1 (by decide),
    (c10_errors_leave_state Library.new "Dune" "Alice").2 (by decide)⟩

/-- C1: in every catalog reachable from the empty catalog by any sequence
of add/issue/return operations, a book is issued exactly when its id lies
in the borrowed list of exactly one user, and an available book's id lies
in no user's borrowed list. -/
theorem c1_issued_iff_uniquely_borrowed (ops : List Op) (b : Book)
    (hb : b ∈ (runOps Library.new ops).books) :
    (b.is_issued = true ↔
      ((runOps Library.new ops).users.filter fun u => u.borrowed_books.contains b.id).length = 1)
    ∧ (b.is_issued = false → ∀ u ∈ (runOps Library.new ops).users, b.id ∉ u.borrowed_books) := by
  have hinv := inv_runOps ops Library.new inv_new
  have hcount := hinv.bCount b hb
  constructor
  · constructor
    · intro hiss
      rw [hiss] at hcount
      simp only [if_true] at hcount
      exact countBorrow_one_filter _ _ hcount
    · intro hfil
      cases hbi : b.is_issued with
      | true => rfl
      | false =>
        rw [hbi] at hcount
        simp only [Bool.false_eq_true, if_false] at hcount
        have := countBorrow_zero_filter _ _ hcount
        omega
  · intro hiss
    rw [hiss] at hcount
    simp only [Bool.false_eq_true, if_false] at hcount
    exact (countBorrow_eq_zero _ _).mp hcount

/-- C1 witness: in the issued scenario catalog, book 1 is issued and lies
in exactly one user's borrowed list. -/
theorem c1_witness :
    ((Book.mk 1 "Dune" "Herbert" true).is_issued = true ↔
      ((runOps Library.new [.addBook "Dune" "Herbert", .addUser "Alice", .issueBook "Dune" "Alice"]).users.filter
          fun u => u.borrowed_books.contains (Book.mk 1 "Dune" "Herbert" true).id).length = 1)
    ∧ ((Book.mk 1 "Dune" "Herbert" true).is_issued = false →
        ∀ u ∈ (runOps Library.new [.addBook "Dune" "Herbert", .addUser "Alice", .issueBook "Dune" "Alice"]).users,
          (Book.mk 1 "Dune" "Herbert" true).id ∉ u.borrowed_books) :=
  c1_issued_iff_uniquely_borrowed
    [.addBook "Dune" "Herbert", .addUser "Alice", .issueBook "Dune" "Alice"]
    (Book.mk 1 "Dune" "Herbert" true) (by decide)

/-- C2 (counterexample): issuing then returning the same pair does not
restore every catalog state: in the scenario catalog where "Dune" is
already issued to Alice, the issue call fails (leaving the state) but the
return call succeeds, so the composite changes the catalog. -/
theorem c2_counterexample :
    (returnBook (issueBook sampleIssued "Dune" "Alice").2 "Dune" "Alice").2 ≠ sampleIssued := by
  decide

/-- C2 (amended): issuing then returning the same (title, user) pair
restores the prior catalog state exactly, provided the issue succeeds
cleanly: the user exists (resolving to `u₀`), an available book with the
title exists (resolving to `B`), no book with the title is currently
issued, and `B.id` is not already among `u₀`'s borrowed books. -/
theorem c2_issue_return_roundTrip (L : Library) (t n : String) (u₀ : User) (B : Book)
    (hu : L.users.find? (fun v => v.name == n) = some u₀)
    (hB : L.books.find? (fun b => b.title == t && !b.is_issued) = some B)
    (hno : ∀ b ∈ L.books, ¬(b.title = t ∧ b.is_issued = true))
    (hfresh : B.id ∉ u₀.borrowed_books) :
    (issueBook L t n).1 = .ok ∧ returnBook (issueBook L t n).2 t n = (.ok, L) := by
  obtain ⟨hpB, l1, l2, hbs, hl1⟩ := List.find?_eq_some.mp hB
  have hl1' : ∀ y ∈ l1, (y.title == t && !y.is_issued) = false := by
    intro y hy
    have hq := hl1 y hy
    cases hyp : (y.title == t && !y.is_issued) with
    | false => rfl
    | true => rw [hyp] at hq; simp at hq
  obtain ⟨hpu, u1, u2, hus, hu1⟩ := List.find?_eq_some.mp hu
  have hu1' : ∀ v ∈ u1, (v.name == n) = false := by
    intro v hv
    have hq := hu1 v hv
    cases hyp : (v.name == n) with
    | false => rfl
    | true => rw [hyp] at hq; simp at hq
  have hsplitB : (B.title == t) = true ∧ B.is_issued = false := by simpa using hpB
  have hnoB : ∀ b ∈ L.books, (b.title == t && b.is_issued) = false := by
    intro b hb
    cases hyp : (b.title == t && b.is_issued) with
    | false => rfl
    | true =>
      have hsp : b.title = t ∧ b.is_issued = true := by simpa using hyp
      exact absurd hsp (hno b hb)
  have hexists : userExists L.users n = true := by
    rw [userExists]
    exact List.any_eq_true.mpr ⟨u₀, List.mem_of_find?_eq_some hu, hpu⟩
  have havail : (L.books.any fun b => b.title == t && !b.is_issued) = true :=
    List.any_eq_true.mpr ⟨B, List.mem_of_find?_eq_some hB, hpB⟩
  have hifirst : issueFirst L.books t = (l1 ++ { B with is_issued := true } :: l2, B.id) := by
    rw [hbs]
    exact issueFirst_decomp t B l1 l2 hl1' hpB
  have hpush : pushBorrow L.users n B.id =
      u1 ++ { u₀ with borrowed_books := u₀.borrowed_books ++ [B.id] } :: u2 := by
    rw [hus]
    exact pushBorrow_decomp n B.id u₀ u1 u2 hu1' hpu
  have hissue : issueBook L t n =
      (.ok, { books := l1 ++ { B with is_issued := true } :: l2,
              users := u1 ++ { u₀ with borrowed_books := u₀.borrowed_books ++ [B.id] } :: u2 }) := by
    simp [issueBook, hexists, havail, hifirst, hpush]
  refine ⟨by rw [hissue], ?_⟩
  rw [hissue]
  have hex' : userExists (u1 ++ { u₀ with borrowed_books := u₀.borrowed_books ++ [B.id] } :: u2) n = true := by
    rw [userExists]
    exact List.any_eq_true.mpr ⟨{ u₀ with borrowed_books := u₀.borrowed_books ++ [B.id] }, by simp, hpu⟩
  have hfind' : (l1 ++ { B with is_issued := true } :: l2).find? (fun b => b.title == t && b.is_issued) =
      some { B with is_issued := true } := by
    rw [List.find?_append]
    have h1 : l1.find? (fun b => b.title == t && b.is_issued) = none := by
      rw [List.find?_eq_none]
      intro y hy
      rw [hnoB y (by rw [hbs]; simp [hy])]
      simp
    rw [h1, List.find?_cons_of_pos]
    · rfl
    · simpa using hsplitB.1
  have hexm : ∃ x ∈ u1 ++ { u₀ with borrowed_books := u₀.borrowed_books ++ [B.id] } :: u2,
      x.name = n ∧ B.id ∈ x.borrowed_books := by
    refine ⟨{ u₀ with borrowed_books := u₀.borrowed_books ++ [B.id] }, by simp, ?_, by simp⟩
    simpa using hpu
  have hcheck' : ((u1 ++ { u₀ with borrowed_books := u₀.borrowed_books ++ [B.id] } :: u2).any
      fun u => u.name == n && u.borrowed_books.contains B.id) = true := by
    obtain ⟨x, hx, hxn, hxm⟩ := hexm
    refine List.any_eq_true.mpr ⟨x, hx, ?_⟩
    simp [hxn, hxm]
  have hclear : clearFirst (l1 ++ { B with is_issued := true } :: l2) t = L.books := by
    have hb' : l1 ++ { B with is_issued := true } :: l2 = (issueFirst L.books t).1 := by
      rw [hifirst]
    rw [hb']
    exact clearFirst_issueFirst t L.books hnoB
  have hremove : removeBorrow (u1 ++ { u₀ with borrowed_books := u₀.borrowed_books ++ [B.id] } :: u2) n B.id =
      L.users := by
    have h2 := removeBorrow_decomp n B.id { u₀ with borrowed_books := u₀.borrowed_books ++ [B.id] } u1 u2 hu1' hpu
    rw [h2, hus]
    have herase : (u₀.borrowed_books ++ [B.id]).erase B.id = u₀.borrowed_books := by
      rw [List.erase_append_right _ hfresh, List.erase_cons_head]
      simp
    simp [herase]
  simp [returnBook, hex', hfind', hcheck', hclear, hremove, hexm]
  intro _ hne
  exact absurd (show u₀.name = n by simpa using hpu) hne

/-- C2 witness: on the fresh scenario catalog the issue succeeds and the
return restores the exact prior state. -/
theorem c2_witness :
    (issueBook sampleFresh "Dune" "Alice").1 = .ok
    ∧ returnBook (issueBook sampleFresh "Dune" "Alice").2 "Dune" "Alice" = (.ok, sampleFresh) :=
  c2_issue_return_roundTrip sampleFresh "Dune" "Alice"
    (User.mk 1 "Alice" []) (Book.mk 1 "Dune" "Herbert" false)
    (by decide) (by decide) (by decide) (by decide)

/-- C7: when the user exists (resolving to `u₀`) and some book with the
title is available (the first such being `B`), `issue_book` succeeds,
flips exactly `B` to issued — leaving every earlier and later book, in
particular any later copy of the same title, untouched — and appends
`B.id` to `u₀`'s borrowed list. -/
theorem c7_issue_selects_first (L : Library) (title user : String) (B : Book) (u₀ : User)
    (hB : L.books.find? (fun b => b.title == title && !b.is_issued) = some B)
    (hu : L.users.find? (fun v => v.name == user) = some u₀) :
    ∃ l1 l2 u1 u2,
      L.books = l1 ++ B :: l2 ∧
      (∀ y ∈ l1, ¬(y.title = title ∧ y.is_issued = false)) ∧
      B.title = title ∧ B.is_issued = false ∧
      L.users = u1 ++ u₀ :: u2 ∧
      (∀ v ∈ u1, v.name ≠ user) ∧
      issueBook L title user =
        (.ok, { books := l1 ++ { B with is_issued := true } :: l2,
                users := u1 ++ { u₀ with borrowed_books := u₀.borrowed_books ++ [B.id] } :: u2 }) := by
  obtain ⟨hpB, l1, l2, hbs, hl1⟩ := List.find?_eq_some.mp hB
  have hl1' : ∀ y ∈ l1, (y.title == title && !y.is_issued) = false := by
    intro y hy
    have hq := hl1 y hy
    cases hyp : (y.title == title && !y.is_issued) with
    | false => rfl
    | true => rw [hyp] at hq; simp at hq
  obtain ⟨hpu, u1, u2, hus, hu1⟩ := List.find?_eq_some.mp hu
  have hu1' : ∀ v ∈ u1, (v.name == user) = false := by
    intro v hv
    have hq := hu1 v hv
    cases hyp : (v.name == user) with
    | false => rfl
    | true => rw [hyp] at hq; simp at hq
  have hsplitB : (B.title == title) = true ∧ B.is_issued = false := by simpa using hpB
  have hexists : userExists L.users user = true := by
    rw [userExists]
    exact List.any_eq_true.mpr ⟨u₀, List.mem_of_find?_eq_some hu, hpu⟩
  have havail : (L.books.any fun b => b.title == title && !b.is_issued) = true :=
    List.any_eq_true.mpr ⟨B, List.mem_of_find?_eq_some hB, hpB⟩
  have hifirst : issueFirst L.books title = (l1 ++ { B with is_issued := true } :: l2, B.id) := by
    rw [hbs]
    exact issueFirst_decomp title B l1 l2 hl1' hpB
  have hpush : pushBorrow L.users user B.id =
      u1 ++ { u₀ with borrowed_books := u₀.borrowed_books ++ [B.id] } :: u2 := by
    rw [hus]
    exact pushBorrow_decomp user B.id u₀ u1 u2 hu1' hpu
  refine ⟨l1, l2, u1, u2, hbs, ?_, by simpa using hsplitB.1, hsplitB.2, hus, ?_, ?_⟩
  · intro y hy hc
    have hq := hl1' y hy
    rw [hc.1, hc.2] at hq
    simp at hq
  · intro v hv hc
    have hq := hu1' v hv
    rw [hc] at hq
    simp at hq
  · simp [issueBook, hexists, havail, hifirst, hpush]

/-- C7 witness: with two books both titled "Echo" (ids 1 and 2), issuing
"Echo" to Bob picks the first copy only: id 1 becomes issued, id 2 stays
available, and Bob's borrowed list becomes [1]. -/
theorem c7_witness :
    (∃ l1 l2 u1 u2,
      sampleEcho.books = l1 ++ Book.mk 1 "Echo" "Smith" false :: l2 ∧
      (∀ y ∈ l1, ¬(y.title = "Echo" ∧ y.is_issued = false)) ∧
      (Book.mk 1 "Echo" "Smith" false).title = "Echo" ∧
      (Book.mk 1 "Echo" "Smith" false).is_issued = false ∧
      sampleEcho.users = u1 ++ User.mk 1 "Bob" [] :: u2 ∧
      (∀ v ∈ u1, v.name ≠ "Bob") ∧
      issueBook sampleEcho "Echo" "Bob" =
        (.ok, { books := l1 ++ { Book.mk 1 "Echo" "Smith" false with is_issued := true } :: l2,
                users := u1 ++ { User.mk 1 "Bob" [] with borrowed_books := [] ++ [1] } :: u2 }))
    ∧ issueBook sampleEcho "Echo" "Bob" =
        (.ok, { books := [Book.mk 1 "Echo" "Smith" true, Book.mk 2 "Echo" "Jones" false],
                users := [User.mk 1 "Bob" [1]] }) :=
  ⟨c7_issue_selects_first sampleEcho "Echo" "Bob" (Book.mk 1 "Echo" "Smith" false)
      (User.mk 1 "Bob" []) (by decide) (by decide),
    by decide⟩

/-- C4: `return_book` checks unknown user, then absence of an issued book
with the title, then non-membership of the resolved first issued book's id
in the user's borrowed list, in that order and short-circuiting; when all
three pass, exactly that book is cleared and its id removed by value from
that user's list. Stated for catalogs with pairwise-distinct user names
(which all reachable catalogs have), so that "that user" is well defined. -/
theorem c4_return_check_order (L : Library) (title user : String)
    (hnames : (L.users.map User.name).Pairwise (· ≠ ·)) :
    ((∀ u ∈ L.users, u.name ≠ user) → returnBook L title user = (.unknownUser, L))
    ∧ ((∃ u ∈ L.users, u.name = user) →
        (∀ b ∈ L.books, ¬(b.title = title ∧ b.is_issued = true)) →
        returnBook L title user = (.bookNotIssued, L))
    ∧ (∀ B u₀, L.books.find? (fun b => b.title == title && b.is_issued) = some B →
        L.users.find? (fun v => v.name == user) = some u₀ →
        B.id ∉ u₀.borrowed_books →
        returnBook L title user = (.notBorrowedByUser, L))
    ∧ (∀ B u₀, L.books.find? (fun b => b.title == title && b.is_issued) = some B →
        L.users.find? (fun v => v.name == user) = some u₀ →
        B.id ∈ u₀.borrowed_books →
        ∃ l1 l2 u1 u2,
          L.books = l1 ++ B :: l2 ∧
          (∀ y ∈ l1, ¬(y.title = title ∧ y.is_issued = true)) ∧
          L.users = u1 ++ u₀ :: u2 ∧
          (∀ v ∈ u1, v.name ≠ user) ∧
          returnBook L title user =
            (.ok, { books := l1 ++ { B with is_issued := false } :: l2,
                    users := u1 ++ { u₀ with borrowed_books := u₀.borrowed_books.erase B.id } :: u2 })) := by
  refine ⟨?_, ?_, ?_, ?_⟩
  · intro h
    have hex : userExists L.users user = false := by
      rw [userExists, List.any_eq_false]
      intro u hu
      simpa using h u hu
    simp [returnBook, hex]
  · intro hsome hnob
    obtain ⟨u, hu, hn⟩ := hsome
    have hex : userExists L.users user = true := by
      rw [userExists]
      exact List.any_eq_true.mpr ⟨u, hu, by simpa using hn⟩
    have hfind : L.books.find? (fun b => b.title == title && b.is_issued) = none := by
      rw [List.find?_eq_none]
      intro b hb
      cases hyp : (b.title == title && b.is_issued) with
      | false => simp
      | true =>
        have hsp : b.title = title ∧ b.is_issued = true := by simpa using hyp
        exact absurd hsp (hnob b hb)
    simp [returnBook, hex, hfind]
  · intro B u₀ hfind hu hnb
    obtain ⟨hpu, u1, u2, hus, hu1⟩ := List.find?_eq_some.mp hu
    have hex : userExists L.users user = true := by
      rw [userExists]
      exact List.any_eq_true.mpr ⟨u₀, List.mem_of_find?_eq_some hu, hpu⟩
    have hun : u₀.name = user := by simpa using hpu
    have huniq : ∀ v ∈ u2, u₀.name ≠ v.name := by
      rw [hus, List.map_append, List.map_cons] at hnames
      have h2 := (List.pairwise_append.mp hnames).2.1
      have hch := (List.pairwise_cons.mp h2).1
      intro v hv
      exact hch v.name (List.mem_map.mpr ⟨v, hv, rfl⟩)
    have hnone : ∀ x ∈ L.users, x.name = user → B.id ∉ x.borrowed_books := by
      intro x hx hxn
      rw [hus] at hx
      rcases List.mem_append.mp hx with hx1 | hx2
      · exact absurd hxn (by have hq := hu1 x hx1; simpa using hq)
      · rcases List.mem_cons.mp hx2 with rfl | hx3
        · exact hnb
        · exact absurd (hun.trans hxn.symm) (huniq x hx3)
    simp [returnBook, hex, hfind]
    exact hnone
  · intro B u₀ hfind hu hyes
    obtain ⟨hpB, l1, l2, hbs, hl1⟩ := List.find?_eq_some.mp hfind
    have hl1' : ∀ y ∈ l1, (y.title == title && y.is_issued) = false := by
      intro y hy
      have hq := hl1 y hy
      cases hyp : (y.title == title && y.is_issued) with
      | false => rfl
      | true => rw [hyp] at hq; simp at hq
    obtain ⟨hpu, u1, u2, hus, hu1⟩ := List.find?_eq_some.mp hu
    have hu1' : ∀ v ∈ u1, (v.name == user) = false := by
      intro v hv
      have hq := hu1 v hv
      cases hyp : (v.name == user) with
      | false => rfl
      | true => rw [hyp] at hq; simp at hq
    have hex : userExists L.users user = true := by
      rw [userExists]
      exact List.any_eq_true.mpr ⟨u₀, List.mem_of_find?_eq_some hu, hpu⟩
    have hun : u₀.name = user := by simpa using hpu
    have hclear : clearFirst L.books title = l1 ++ { B with is_issued := false } :: l2 := by
      rw [hbs]
      exact clearFirst_decomp title B l1 l2 hl1' hpB
    have hremove : removeBorrow L.users user B.id =
        u1 ++ { u₀ with borrowed_books := u₀.borrowed_books.erase B.id } :: u2 := by
      rw [hus]
      exact removeBorrow_decomp user B.id u₀ u1 u2 hu1' hpu
    have hexm : ∃ x ∈ L.users, x.name = user ∧ B.id ∈ x.borrowed_books :=
      ⟨u₀, List.mem_of_find?_eq_some hu, hun, hyes⟩
    refine ⟨l1, l2, u1, u2, hbs, ?_, hus, ?_, ?_⟩
    · intro y hy hc
      have hq := hl1' y hy
      rw [hc.1, hc.2] at hq
      simp at hq
    · intro v hv hc
      have hq := hu1' v hv
      rw [hc] at hq
      simp at hq
    · simp [returnBook, hex, hfind, hclear, hremove, hexm]

/-- C4 witness: the three error outcomes and the success effect, each on a
concrete catalog: unknown user, then no issued "Dune", then "Dune" issued
but not to Carol, and finally a successful return by Alice. -/
theorem c4_witness :
    (returnBook sampleIssued "Dune" "Zed" = (.unknownUser, sampleIssued))
    ∧ (returnBook sampleFresh "Dune" "Alice" = (.bookNotIssued, sampleFresh))
    ∧ (returnBook sampleTwoUsers "Dune" "Carol" = (.notBorrowedByUser, sampleTwoUsers))
    ∧ (∃ l1 l2 u1 u2,
        sampleIssued.books = l1 ++ Book.mk 1 "Dune" "Herbert" true :: l2 ∧
        (∀ y ∈ l1, ¬(y.title = "Dune" ∧ y.is_issued = true)) ∧
        sampleIssued.users = u1 ++ User.mk 1 "Alice" [1] :: u2 ∧
        (∀ v ∈ u1, v.name ≠ "Alice") ∧
        returnBook sampleIssued "Dune" "Alice" =
          (.ok, { books := l1 ++ { Book.mk 1 "Dune" "Herbert" true with is_issued := false } :: l2,
                  users := u1 ++ { User.mk 1 "Alice" [1] with borrowed_books := [1].erase 1 } :: u2 })) :=
  ⟨(c4_return_check_order sampleIssued "Dune" "Zed" (by decide)).1 (by decide),
    (c4_return_check_order sampleFresh "Dune" "Alice" (by decide)).2.1 (by decide) (by decide),
    (c4_return_check_order sampleTwoUsers "Dune" "Carol" (by decide)).2.2.1
      (Book.mk 1 "Dune" "Herbert" true) (User.mk 2 "Carol" []) (by decide) (by decide) (by decide),
    (c4_return_check_order sampleIssued "Dune" "Alice" (by decide)).2.2.2
      (Book.mk 1 "Dune" "Herbert" true) (User.mk 1 "Alice" [1]) (by decide) (by decide) (by decide)⟩
